import Mathlib

/-!
Verification development for the FeedMe feed-polling engine
(`src/feedme.py`).  The Python source is shallowly embedded: the pure
diff/ledger logic of `FeedMe.check_entries`, `FeedMe.get_entries` and
`FeedMe.update_entry` becomes pure list-manipulating functions, one poll
cycle (`FeedMe.poll` body) becomes a recursion over the registered feed
list threading the ledger, and the supervisor (`FeedMe.start`,
`FeedMe.stop`, `FeedMe._cleanup_poll` together with asyncio task
lifecycle) becomes an explicit state machine driven by command and
task-completion events.
-/

namespace Feedme

/-- One parsed feed entry as produced by `feedparser`: the fields of
`entry` that `check_entries` and `post_update` consult (`entry.id`,
`entry.title`, `entry.summary`, `entry.updated`).  Identifiers and the
updated marker are opaque strings. -/
structure Entry where
  id : String
  title : String
  summary : String
  updated : String
  deriving DecidableEq, Repr

/-- One row of the `entries` table, in the column order used by the
INSERT in `FeedMe.update_entry` and by the positional indexing
`old_entry[2]`, `old_entry[3]` in `FeedMe.check_entries`:
`(feed_name, channel_id, entry_id, updated)`. -/
structure DedupRecord where
  feed_name : String
  channel_id : Nat
  entry_id : String
  updated : String
  deriving DecidableEq, Repr

/-- A row of the `feeds` table / the `Feed` class of `feedme.py`:
`(name, channel_id, guild_id, url)`. -/
structure BotFeed where
  name : String
  channel_id : Nat
  guild_id : Nat
  url : String
  deriving DecidableEq, Repr

/-- A parsed feed document as seen by `check_entries`: the parsed title
(`feed.feed.title`) and the ordered entry list (`feed.entries`, which the
platform delivers newest-first). -/
structure ParsedFeed where
  title : String
  entries : List Entry
  deriving DecidableEq, Repr

/-- What `bot.fetch_channel` returns, as far as `post_update` can
distinguish it: a text channel (the embed is sent) or some other channel
type (the `isinstance` check fails, an error is printed, nothing is
sent). -/
inductive ChannelKind where
  | text
  | nonText
  deriving DecidableEq, Repr

/-- Console output of the poll path (`print` calls in `check_entries`
and `post_update`). -/
inductive LogMsg where
  | checking
  | foundUpdated (title : String)
  | notTextChannel (channel_id : Nat)
  deriving DecidableEq, Repr

/-- `FeedMe.get_entries`: SELECT the rows of the `entries` table whose
`feed_name` and `channel_id` match the given pair. -/
def get_entries (ledger : List DedupRecord) (feed_name : String)
    (cid : Nat) : List DedupRecord :=
  ledger.filter (fun r => r.feed_name == feed_name && r.channel_id == cid)

/-- `FeedMe.update_entry`.  Modelled from the spec: the table schema
(`database/init_database.sql`) is not under `src/`, and the REPLACE
statement's effect depends on it; spec section 6 says the `entries`
table is "upserted via replace-on-conflict over
`(feed_name, destination_id, entry_id)`", so REPLACE removes any row
with that key and inserts the new row. -/
def update_entry (ledger : List DedupRecord) (entry_id : String)
    (feed_name : String) (cid : Nat) (updated : String) : List DedupRecord :=
  ledger.filter
      (fun r =>
        !(r.feed_name == feed_name && r.channel_id == cid &&
          r.entry_id == entry_id))
    ++ [⟨feed_name, cid, entry_id, updated⟩]

/-- The record `update_entry` inserts for entry `e` under feed title
`title` and channel `cid`. -/
def mkRec (title : String) (cid : Nat) (e : Entry) : DedupRecord :=
  ⟨title, cid, e.id, e.updated⟩

/-- The inner for/else loop of `check_entries`: the entry is skipped
(`break`) iff some fetched row has `old_entry[2] == entry.id and
old_entry[3] == entry.updated`. -/
def entryMatches (updates : List DedupRecord) (e : Entry) : Bool :=
  updates.any (fun r => r.entry_id == e.id && r.updated == e.updated)

/-- What `post_update` sends to the channel: the embed for the entry if
the channel is a text channel, nothing otherwise. -/
def sentPosts (kind : ChannelKind) (e : Entry) : List Entry :=
  match kind with
  | .text => [e]
  | .nonText => []

/-- Console output produced while processing one new-or-changed entry:
`check_entries` prints the found-updated line, and for a non-text
channel `post_update` prints its error line. -/
def entryLogs (kind : ChannelKind) (cid : Nat) (e : Entry) : List LogMsg :=
  match kind with
  | .text => [.foundUpdated e.title]
  | .nonText => [.foundUpdated e.title, .notTextChannel cid]

/-- Accumulated observable state of one `check_entries` call: the
entries actually sent to the channel, the `entries` table, and console
output. -/
structure CheckState where
  posts : List Entry
  ledger : List DedupRecord
  logs : List LogMsg
  deriving DecidableEq, Repr

/-- One iteration of the outer `for entry in reversed(feed.entries)`
loop of `check_entries`: if some row of the pre-loop snapshot matches
the entry exactly, nothing happens; otherwise the entry is posted via
`post_update` and then `update_entry` writes its row (the write is
unconditional: it happens whether or not `post_update` actually sent
anything). -/
def checkStep (kind : ChannelKind) (title : String) (cid : Nat)
    (updates : List DedupRecord) (st : CheckState) (e : Entry) : CheckState :=
  if entryMatches updates e then st
  else
    { posts := st.posts ++ sentPosts kind e
      ledger := update_entry st.ledger e.id title cid e.updated
      logs := st.logs ++ entryLogs kind cid e }

/-- `FeedMe.check_entries`: load the snapshot of stored rows for
`(feed.feed.title, channel_id)` — note: the title parsed from the
current document, not a registry name — then process the entries in
reversed (oldest-first) order against that fixed snapshot. -/
def check_entries (kind : ChannelKind) (feed : ParsedFeed) (cid : Nat)
    (ledger : List DedupRecord) : CheckState :=
  feed.entries.reverse.foldl
    (checkStep kind feed.title cid (get_entries ledger feed.title cid))
    { posts := [], ledger := ledger, logs := [LogMsg.checking] }

/-- Folding the ledger writes of a list of new-or-changed entries, in
processing order (used to state what `check_entries` does to the
table). -/
def ledgerAfter (title : String) (cid : Nat) (L : List DedupRecord)
    (es : List Entry) : List DedupRecord :=
  es.foldl (fun acc e => update_entry acc e.id title cid e.updated) L

/-- The failures `FeedMe.fetch` can raise: a missing `bot.session`
(`MissingSessionError`), a non-200 status (`BadResponseError`), and the
`aiohttp` / `asyncio` failures `InvalidURL` and `TimeoutError` that the
GET itself can raise. -/
inductive FetchError where
  | missingSession
  | badStatus (code : Nat)
  | invalidURL
  | timeout
  deriving DecidableEq, Repr

/-- One pass of the body of `FeedMe.poll` over the loaded feed list:
fetch+parse each feed in order and run `check_entries` on it, threading
the `entries` table through.  `fr` is the environment: what
`feedparser.parse(await self.fetch(url))` yields for each url this
cycle.  A fetch failure is uncaught in `poll`, so it stops the cycle
immediately: the remaining feeds are not fetched or processed, and the
error escapes (third component).  Posts and ledger writes already made
stay made. -/
def pollCycle (fr : String → Except FetchError ParsedFeed)
    (kind : Nat → ChannelKind) :
    List BotFeed → List DedupRecord → List (Nat × Entry) →
    List (Nat × Entry) × List DedupRecord × Option FetchError
  | [], L, ps => (ps, L, none)
  | f :: rest, L, ps =>
    match fr f.url with
    | .error e => (ps, L, some e)
    | .ok parsed =>
      let st := check_entries (kind f.channel_id) parsed f.channel_id L
      pollCycle fr kind rest st.ledger
        (ps ++ st.posts.map (fun e => (f.channel_id, e)))

/-- The `Feed` object built by the `new` command (line 191): its `name`
is the parsed document's own title `feed.feed.title`, not a
caller-chosen identifier. -/
def newFeed (parsed : ParsedFeed) (cid gid : Nat) (url : String) : BotFeed :=
  ⟨parsed.title, cid, gid, url⟩

/-! ## Supervisor state machine

`FeedMe.start`, `FeedMe.stop` and the callback returned by
`FeedMe._cleanup_poll`, together with the asyncio task lifecycle.  A
task is `running`, `cancelRequested` (after `Task.cancel()`, before the
cancellation lands), `doneCancelled` (finished cancelled; only then does
`Task.cancelled()` return `True`), or `doneFailed` (finished with an
unhandled exception).  `hasObserver` records whether
`add_done_callback` attached the cleanup callback to the task: `start`
attaches it, the restart inside the callback does not. -/

/-- Lifecycle status of one asyncio task running `poll`. -/
inductive TaskStatus where
  | running
  | cancelRequested
  | doneCancelled
  | doneFailed
  deriving DecidableEq, Repr

/-- One asyncio task created by `start` or by the cleanup callback's
restart. -/
structure STask where
  id : Nat
  status : TaskStatus
  hasObserver : Bool
  deriving DecidableEq, Repr

/-- Console output of the supervisor paths (`print` calls in `start`,
`stop` and `cleanup`; `callbackException` stands for the `raise e` at
the end of `cleanup`, which the event loop surfaces). -/
inductive SupLog where
  | startingPoller
  | stoppedPolling
  | restartingPoller
  | callbackException
  deriving DecidableEq, Repr

/-- Replies the commands produce: the success reaction emoji,
"Already running!", "Already stopped!". -/
inductive Reply where
  | successReaction
  | alreadyRunning
  | alreadyStopped
  deriving DecidableEq, Repr

/-- Supervisor state: `poller` is `self.poller` (the id of the task it
references, `none` initially), `tasks` is every task ever created with
its current status, `nextId` a fresh-id counter. -/
structure SupState where
  poller : Option Nat
  tasks : List STask
  nextId : Nat
  logs : List SupLog
  replies : List Reply
  deriving DecidableEq, Repr

/-- A task is live while it has not finished. -/
def isLive : TaskStatus → Bool
  | .running => true
  | .cancelRequested => true
  | .doneCancelled => false
  | .doneFailed => false

/-- Look a task up by id. -/
def findTask (ts : List STask) (tid : Nat) : Option STask :=
  ts.find? (fun t => t.id == tid)

/-- Set the status of the task with the given id. -/
def setStatus (ts : List STask) (tid : Nat) (st : TaskStatus) : List STask :=
  ts.map (fun t => if t.id == tid then { t with status := st } else t)

/-- `Task.cancel()` on the task with the given id: a running task
becomes cancel-requested; a finished task is unaffected. -/
def cancelTask (ts : List STask) (tid : Nat) : List STask :=
  ts.map (fun t =>
    if t.id == tid && t.status == .running then
      { t with status := .cancelRequested }
    else t)

/-- The guard of `start`: `self.poller is None or
self.poller.cancelled()` — `Task.cancelled()` is `True` only for a task
that finished cancelled. -/
def handleFree (s : SupState) : Bool :=
  match s.poller with
  | none => true
  | some tid =>
    match findTask s.tasks tid with
    | some t => t.status == .doneCancelled
    | none => false

/-- The then-branch of `start`: create the poll task, attach the
cleanup callback, log, react with success. -/
def createStarted (s : SupState) : SupState :=
  { s with poller := some s.nextId
           tasks := s.tasks ++ [⟨s.nextId, .running, true⟩]
           nextId := s.nextId + 1
           logs := s.logs ++ [.startingPoller]
           replies := s.replies ++ [.successReaction] }

/-- Events driving the supervisor: the `start` and `stop` commands, and
a live task finishing (cancelled, or failed with an unhandled
exception; `poll` never returns normally).  When the finishing task has
the cleanup callback attached, the callback runs as part of the event:
for a cancelled task it returns at once; for a failed task it logs,
replaces `self.poller` with a brand-new task — created WITHOUT
attaching the callback — and re-raises the exception into the event
loop. -/
inductive SupEvent where
  | startCmd
  | stopCmd
  | taskCompleteCancelled (tid : Nat)
  | taskCompleteFailed (tid : Nat)
  deriving DecidableEq, Repr

/-- One step of the supervisor state machine.  Events whose
precondition does not hold (completing a task that is not live, etc.)
leave the state unchanged. -/
def supStep (s : SupState) : SupEvent → SupState
  | .startCmd =>
    if handleFree s then createStarted s
    else { s with replies := s.replies ++ [.alreadyRunning] }
  | .stopCmd =>
    match s.poller with
    | none => { s with replies := s.replies ++ [.alreadyStopped] }
    | some tid =>
      { s with tasks := cancelTask s.tasks tid
               logs := s.logs ++ [.stoppedPolling]
               replies := s.replies ++ [.successReaction] }
  | .taskCompleteCancelled tid =>
    match findTask s.tasks tid with
    | some t =>
      if t.status == .cancelRequested then
        { s with tasks := setStatus s.tasks tid .doneCancelled }
      else s
    | none => s
  | .taskCompleteFailed tid =>
    match findTask s.tasks tid with
    | some t =>
      if t.status == .running then
        if t.hasObserver then
          { s with
              tasks := setStatus s.tasks tid .doneFailed
                ++ [⟨s.nextId, .running, false⟩]
              poller := some s.nextId
              nextId := s.nextId + 1
              logs := s.logs ++ [.restartingPoller, .callbackException] }
        else { s with tasks := setStatus s.tasks tid .doneFailed }
      else s
    | none => s

/-- The initial supervisor state: `self.poller = None`, no task ever
created. -/
def supInit : SupState :=
  { poller := none, tasks := [], nextId := 0, logs := [], replies := [] }

/-- Run the supervisor from the initial state over a list of events. -/
def supRun (evs : List SupEvent) : SupState :=
  evs.foldl supStep supInit

/-- The tasks currently live. -/
def liveTasks (s : SupState) : List STask :=
  s.tasks.filter (fun t => isLive t.status)

/-- Invariant of the supervisor state machine: task ids are below the
fresh counter, ids are unique, and every live task is the one the
handle references. -/
def SupInv (s : SupState) : Prop :=
  (∀ t ∈ s.tasks, t.id < s.nextId) ∧
  (s.tasks.map STask.id).Nodup ∧
  (∀ t ∈ s.tasks, isLive t.status = true → s.poller = some t.id)


theorem checkFold_posts (kind : ChannelKind) (title : String) (cid : Nat)
    (updates : List DedupRecord) (l : List Entry) (s : CheckState) :
    (l.foldl (checkStep kind title cid updates) s).posts
      = s.posts ++ (l.filter (fun e => !(entryMatches updates e))).flatMap
          (sentPosts kind) := by
  induction l generalizing s with
  | nil => simp
  | cons e l ih =>
    cases h : entryMatches updates e with
    | true => simp [List.foldl_cons, checkStep, h, ih, List.filter_cons]
    | false =>
      simp [List.foldl_cons, checkStep, h, ih, List.filter_cons]

theorem checkFold_ledger (kind : ChannelKind) (title : String) (cid : Nat)
    (updates : List DedupRecord) (l : List Entry) (s : CheckState) :
    (l.foldl (checkStep kind title cid updates) s).ledger
      = ledgerAfter title cid s.ledger
          (l.filter (fun e => !(entryMatches updates e))) := by
  induction l generalizing s with
  | nil => simp [ledgerAfter]
  | cons e l ih =>
    cases h : entryMatches updates e with
    | true => simp [List.foldl_cons, checkStep, h, ih, List.filter_cons]
    | false =>
      simp [List.foldl_cons, checkStep, h, ih, List.filter_cons, ledgerAfter]

theorem checkFold_logs (kind : ChannelKind) (title : String) (cid : Nat)
    (updates : List DedupRecord) (l : List Entry) (s : CheckState) :
    (l.foldl (checkStep kind title cid updates) s).logs
      = s.logs ++ (l.filter (fun e => !(entryMatches updates e))).flatMap
          (entryLogs kind cid) := by
  induction l generalizing s with
  | nil => simp
  | cons e l ih =>
    cases h : entryMatches updates e with
    | true => simp [List.foldl_cons, checkStep, h, ih, List.filter_cons]
    | false =>
      simp [List.foldl_cons, checkStep, h, ih, List.filter_cons]

theorem get_entries_update_same (L : List DedupRecord) (title : String)
    (cid : Nat) (e : Entry) :
    get_entries (update_entry L e.id title cid e.updated) title cid
      = (get_entries L title cid).filter (fun r => !(r.entry_id == e.id))
          ++ [mkRec title cid e] := by
  unfold get_entries update_entry mkRec
  rw [List.filter_append, List.filter_filter, List.filter_filter]
  congr 1
  · apply List.filter_congr
    intro r _
    cases r.feed_name == title <;> cases r.channel_id == cid <;>
      cases r.entry_id == e.id <;> rfl
  · simp

theorem mem_get_entries {L : List DedupRecord} {title : String} {cid : Nat}
    {r : DedupRecord} (h : r ∈ get_entries L title cid) :
    r ∈ L ∧ r.feed_name = title ∧ r.channel_id = cid := by
  unfold get_entries at h
  rw [List.mem_filter] at h
  obtain ⟨h1, h2⟩ := h
  simp only [Bool.and_eq_true, beq_iff_eq] at h2
  exact ⟨h1, h2⟩

theorem get_entries_ledgerAfter_of_not_mem {L : List DedupRecord}
    {title : String} {cid : Nat} {r : DedupRecord} (es : List Entry)
    (hr : r ∈ get_entries L title cid)
    (hid : ∀ e ∈ es, e.id ≠ r.entry_id) :
    r ∈ get_entries (ledgerAfter title cid L es) title cid := by
  induction es generalizing L with
  | nil => exact hr
  | cons e es ih =>
    have hstep : r ∈ get_entries (update_entry L e.id title cid e.updated) title cid := by
      rw [get_entries_update_same]
      apply List.mem_append_left
      rw [List.mem_filter]
      refine ⟨hr, ?_⟩
      have : e.id ≠ r.entry_id := hid e (List.mem_cons_self e es)
      simp [beq_iff_eq]
      exact fun hc => this hc.symm
    exact ih hstep (fun f hf => hid f (List.mem_cons_of_mem e hf))

theorem mkRec_mem_ledgerAfter {title : String} {cid : Nat} {e : Entry}
    {es : List Entry} (L : List DedupRecord)
    (he : e ∈ es) (hnd : (es.map Entry.id).Nodup) :
    mkRec title cid e ∈ get_entries (ledgerAfter title cid L es) title cid := by
  induction es generalizing L with
  | nil => cases he
  | cons f fs ih =>
    rw [List.map_cons, List.nodup_cons] at hnd
    rcases List.mem_cons.mp he with rfl | he2
    · apply get_entries_ledgerAfter_of_not_mem fs
      · rw [get_entries_update_same]
        exact List.mem_append_right _ (List.mem_singleton.mpr rfl)
      · intro g hg hc
        have hc2 : g.id = e.id := hc
        exact hnd.1 (hc2 ▸ List.mem_map.mpr ⟨g, hg, rfl⟩)
    · exact ih (update_entry L f.id title cid f.updated) he2 hnd.2

theorem entryMatches_iff (updates : List DedupRecord) (e : Entry) :
    entryMatches updates e = true
      ↔ ∃ r ∈ updates, r.entry_id = e.id ∧ r.updated = e.updated := by
  simp [entryMatches, List.any_eq_true]

theorem check_entries_posts_text (feed : ParsedFeed) (cid : Nat)
    (L : List DedupRecord) :
    (check_entries .text feed cid L).posts
      = feed.entries.reverse.filter
          (fun e => !(entryMatches (get_entries L feed.title cid) e)) := by
  rw [check_entries, checkFold_posts]
  have h : sentPosts ChannelKind.text = fun e : Entry => [e] := rfl
  rw [h, List.flatMap_singleton']
  simp

theorem check_entries_posts_nonText (feed : ParsedFeed) (cid : Nat)
    (L : List DedupRecord) :
    (check_entries .nonText feed cid L).posts = [] := by
  rw [check_entries, checkFold_posts]
  have h : sentPosts ChannelKind.nonText = fun _ : Entry => ([] : List Entry) := rfl
  simp [h]

theorem check_entries_ledger_eq (kind : ChannelKind) (feed : ParsedFeed)
    (cid : Nat) (L : List DedupRecord) :
    (check_entries kind feed cid L).ledger
      = ledgerAfter feed.title cid L
          (feed.entries.reverse.filter
            (fun e => !(entryMatches (get_entries L feed.title cid) e))) := by
  rw [check_entries, checkFold_ledger]

theorem check_entries_logs_eq (kind : ChannelKind) (feed : ParsedFeed)
    (cid : Nat) (L : List DedupRecord) :
    (check_entries kind feed cid L).logs
      = LogMsg.checking ::
          (feed.entries.reverse.filter
            (fun e => !(entryMatches (get_entries L feed.title cid) e))).flatMap
            (entryLogs kind cid) := by
  rw [check_entries, checkFold_logs]
  rfl


theorem entryMatches_false_iff (updates : List DedupRecord) (e : Entry) :
    entryMatches updates e = false
      ↔ ¬ ∃ r ∈ updates, r.entry_id = e.id ∧ r.updated = e.updated := by
  rw [← entryMatches_iff]
  cases entryMatches updates e <;> simp

theorem nodup_filter_reverse_map (es : List Entry) (p : Entry → Bool)
    (hnd : (es.map Entry.id).Nodup) :
    ((es.reverse.filter p).map Entry.id).Nodup := by
  apply List.Nodup.sublist (List.Sublist.map Entry.id (List.filter_sublist _))
  rw [List.map_reverse, List.nodup_reverse]
  exact hnd

theorem get_entries_ledgerAfter_fresh (title : String) (cid : Nat)
    (L : List DedupRecord) (es : List Entry)
    (hnd : (es.map Entry.id).Nodup)
    (h0 : ∀ r ∈ get_entries L title cid, ∀ e ∈ es, r.entry_id ≠ e.id) :
    get_entries (ledgerAfter title cid L es) title cid
      = get_entries L title cid ++ es.map (mkRec title cid) := by
  induction es generalizing L with
  | nil => simp [ledgerAfter]
  | cons e es ih =>
    rw [List.map_cons, List.nodup_cons] at hnd
    have hstep : ledgerAfter title cid L (e :: es)
        = ledgerAfter title cid (update_entry L e.id title cid e.updated) es := rfl
    rw [hstep, ih (update_entry L e.id title cid e.updated) hnd.2]
    · rw [get_entries_update_same]
      have hfix : (get_entries L title cid).filter
          (fun r => !(r.entry_id == e.id)) = get_entries L title cid := by
        rw [List.filter_eq_self]
        intro r hr
        have := h0 r hr e (List.mem_cons_self e es)
        simp [this]
      rw [hfix]
      simp [List.map_cons]
    · intro r hr f hf
      rw [get_entries_update_same] at hr
      rcases List.mem_append.mp hr with hr1 | hr2
      · exact h0 r (List.mem_filter.mp hr1).1 f (List.mem_cons_of_mem e hf)
      · rw [List.mem_singleton.mp hr2]
        intro hc
        have hc2 : e.id = f.id := hc
        exact hnd.1 (hc2 ▸ List.mem_map.mpr ⟨f, hf, rfl⟩)

/-- Claim C1: in a poll cycle, for every entry of a fetched feed, a
notification is dispatched for the entry iff no stored record for
`(feed title, channel)` matches both its `entry_id` and its `updated`
marker exactly; such an entry (including one whose stored `updated`
marker differs) is posted and its record is written. -/
theorem C1_diff_rule (feed : ParsedFeed) (cid : Nat) (L : List DedupRecord)
    (e : Entry) (he : e ∈ feed.entries) :
    (e ∈ (check_entries .text feed cid L).posts ↔
      ¬ ∃ r ∈ get_entries L feed.title cid,
          r.entry_id = e.id ∧ r.updated = e.updated) ∧
    ((feed.entries.map Entry.id).Nodup →
      (¬ ∃ r ∈ get_entries L feed.title cid,
          r.entry_id = e.id ∧ r.updated = e.updated) →
      mkRec feed.title cid e ∈
        get_entries (check_entries .text feed cid L).ledger feed.title cid) := by
  constructor
  · rw [check_entries_posts_text, List.mem_filter, ← entryMatches_false_iff]
    constructor
    · intro h
      have := h.2
      cases hb : entryMatches (get_entries L feed.title cid) e
      · rfl
      · rw [hb] at this
        cases this
    · intro hf
      refine ⟨List.mem_reverse.mpr he, ?_⟩
      rw [hf]
      rfl
  · intro hnd hne
    rw [← entryMatches_false_iff] at hne
    rw [check_entries_ledger_eq]
    apply mkRec_mem_ledgerAfter
    · rw [List.mem_filter]
      exact ⟨List.mem_reverse.mpr he, by rw [hne]; rfl⟩
    · exact nodup_filter_reverse_map feed.entries _ hnd

/-- Concrete instance of `C1_diff_rule`: a single never-seen entry is
posted. -/
theorem C1_diff_rule_witness :
    (⟨"E1", "T", "S", "m0"⟩ : Entry) ∈
      (check_entries .text ⟨"F", [⟨"E1", "T", "S", "m0"⟩]⟩ 9 []).posts := by
  have h := C1_diff_rule ⟨"F", [⟨"E1", "T", "S", "m0"⟩]⟩ 9 []
    ⟨"E1", "T", "S", "m0"⟩ (by simp)
  exact h.1.mpr (by simp [get_entries])

/-- Claim C2: a first poll of a feed with no stored records for its
`(title, channel)` pair posts every entry, oldest-first (the reverse of
the parser's newest-first order), and leaves exactly one stored record
per entry. -/
theorem C2_first_poll (feed : ParsedFeed) (cid : Nat) (L : List DedupRecord)
    (h0 : get_entries L feed.title cid = [])
    (hnd : (feed.entries.map Entry.id).Nodup) :
    (check_entries .text feed cid L).posts = feed.entries.reverse ∧
    get_entries (check_entries .text feed cid L).ledger feed.title cid
      = feed.entries.reverse.map (mkRec feed.title cid) := by
  have hfilt : feed.entries.reverse.filter
      (fun e => !(entryMatches (get_entries L feed.title cid) e))
      = feed.entries.reverse := by
    rw [List.filter_eq_self]
    intro e he
    rw [h0]
    rfl
  constructor
  · rw [check_entries_posts_text, hfilt]
  · rw [check_entries_ledger_eq, hfilt,
      get_entries_ledgerAfter_fresh feed.title cid L feed.entries.reverse
        (by rw [List.map_reverse, List.nodup_reverse]; exact hnd)
        (by rw [h0]; intro r hr; cases hr),
      h0, List.nil_append]

/-- Concrete instance of `C2_first_poll`: two fresh entries delivered
newest-first are posted oldest-first and both recorded. -/
theorem C2_first_poll_witness :
    (check_entries .text
        ⟨"Daily", [⟨"E2", "t2", "s2", "m2"⟩, ⟨"E1", "t1", "s1", "m1"⟩]⟩ 9
        []).posts
      = [⟨"E1", "t1", "s1", "m1"⟩, ⟨"E2", "t2", "s2", "m2"⟩] ∧
    get_entries
        (check_entries .text
          ⟨"Daily", [⟨"E2", "t2", "s2", "m2"⟩, ⟨"E1", "t1", "s1", "m1"⟩]⟩ 9
          []).ledger "Daily" 9
      = [⟨"Daily", 9, "E1", "m1"⟩, ⟨"Daily", 9, "E2", "m2"⟩] := by
  have h := C2_first_poll
    ⟨"Daily", [⟨"E2", "t2", "s2", "m2"⟩, ⟨"E1", "t1", "s1", "m1"⟩]⟩ 9 []
    (by simp [get_entries]) (by simp)
  exact ⟨h.1, h.2⟩


theorem filter_entries_single {es : List Entry} {p : Entry → Bool} {e : Entry}
    (hnd : (es.map Entry.id).Nodup) (he : e ∈ es) (hpe : p e = true)
    (ho : ∀ f ∈ es, f ≠ e → p f = false) :
    es.filter p = [e] := by
  induction es with
  | nil => cases he
  | cons f fs ih =>
    rw [List.map_cons, List.nodup_cons] at hnd
    rcases List.mem_cons.mp he with rfl | he2
    · rw [List.filter_cons_of_pos hpe]
      have hnil : fs.filter p = [] := by
        rw [List.filter_eq_nil_iff]
        intro g hg hpg
        have hge : g ≠ e := by
          rintro rfl
          exact hnd.1 (List.mem_map.mpr ⟨g, hg, rfl⟩)
        rw [ho g (List.mem_cons_of_mem _ hg) hge] at hpg
        cases hpg
      rw [hnil]
    · have hf : f ≠ e := by
        rintro rfl
        exact hnd.1 (List.mem_map.mpr ⟨f, he2, rfl⟩)
      have hpf : ¬ p f = true := by
        rw [ho f (List.mem_cons_self f fs) hf]
        simp
      rw [List.filter_cons_of_neg hpf]
      exact ih hnd.2 he2 (fun g hg hge => ho g (List.mem_cons_of_mem f hg) hge)

theorem check_posts_nil_of_all_match (feed : ParsedFeed) (cid : Nat)
    (L : List DedupRecord)
    (h : ∀ e ∈ feed.entries,
      entryMatches (get_entries L feed.title cid) e = true) :
    (check_entries .text feed cid L).posts = [] := by
  rw [check_entries_posts_text, List.filter_eq_nil_iff]
  intro e he
  rw [h e (List.mem_reverse.mp he)]
  simp

/-- Claim C3: when an already-seen entry's updated marker changes and
nothing else does, the next cycle posts exactly that entry once,
upserts its record (one record for the `(title, channel, entry id)` key,
carrying the new marker), and a further cycle on unchanged content
posts nothing. -/
theorem C3_change_redelivery (feed : ParsedFeed) (cid : Nat)
    (L : List DedupRecord) (e : Entry) (m_old : String)
    (hnd : (feed.entries.map Entry.id).Nodup)
    (he : e ∈ feed.entries)
    (hold : (⟨feed.title, cid, e.id, m_old⟩ : DedupRecord) ∈ L)
    (hchanged : m_old ≠ e.updated)
    (hothers : ∀ f ∈ feed.entries, f ≠ e →
      entryMatches (get_entries L feed.title cid) f = true)
    (hnew : entryMatches (get_entries L feed.title cid) e = false) :
    (check_entries .text feed cid L).posts = [e] ∧
    (get_entries (check_entries .text feed cid L).ledger feed.title
          cid).filter (fun r => r.entry_id == e.id)
      = [mkRec feed.title cid e] ∧
    (check_entries .text feed cid
        (check_entries .text feed cid L).ledger).posts = [] := by
  have hfilt : feed.entries.reverse.filter
      (fun f => !(entryMatches (get_entries L feed.title cid) f)) = [e] := by
    apply filter_entries_single
      (by rw [List.map_reverse, List.nodup_reverse]; exact hnd)
      (List.mem_reverse.mpr he)
    · rw [hnew]; rfl
    · intro f hf hfe
      rw [hothers f (List.mem_reverse.mp hf) hfe]
      rfl
  have hledger : (check_entries .text feed cid L).ledger
      = update_entry L e.id feed.title cid e.updated := by
    rw [check_entries_ledger_eq, hfilt]
    rfl
  have hget : get_entries (check_entries .text feed cid L).ledger
        feed.title cid
      = (get_entries L feed.title cid).filter
          (fun r => !(r.entry_id == e.id)) ++ [mkRec feed.title cid e] := by
    rw [hledger, get_entries_update_same]
  refine ⟨?_, ?_, ?_⟩
  · rw [check_entries_posts_text, hfilt]
  · rw [hget, List.filter_append, List.filter_filter]
    have h1 : (get_entries L feed.title cid).filter
        (fun r => (r.entry_id == e.id) && !(r.entry_id == e.id)) = [] := by
      rw [List.filter_eq_nil_iff]
      intro r hr
      cases r.entry_id == e.id <;> simp
    rw [h1, List.nil_append]
    have h2 : (mkRec feed.title cid e).entry_id == e.id := by
      simp [mkRec]
    simp [h2]
  · apply check_posts_nil_of_all_match
    intro f hf
    rw [entryMatches_iff]
    by_cases hfe : f = e
    · subst hfe
      refine ⟨mkRec feed.title cid f, ?_, rfl, rfl⟩
      rw [hget]
      exact List.mem_append_right _ (List.mem_singleton.mpr rfl)
    · obtain ⟨r, hr, hrid, hrup⟩ :=
        (entryMatches_iff _ f).mp (hothers f hf hfe)
      refine ⟨r, ?_, hrid, hrup⟩
      rw [hget]
      apply List.mem_append_left
      rw [List.mem_filter]
      refine ⟨hr, ?_⟩
      have hne : f.id ≠ e.id := fun hc =>
        hfe (List.inj_on_of_nodup_map hnd hf he hc)
      rw [hrid]
      simp [hne]
  
/-- Concrete instance of `C3_change_redelivery`: a two-entry feed where
`E2`'s marker changed from `m2` to `m2x` reposts only `E2`, keeps one
row for it with the new marker, and a repeat cycle posts nothing. -/
theorem C3_change_redelivery_witness :
    (check_entries .text
        ⟨"Daily", [⟨"E2", "t2", "s2", "m2x"⟩, ⟨"E1", "t1", "s1", "m1"⟩]⟩ 9
        [⟨"Daily", 9, "E1", "m1"⟩, ⟨"Daily", 9, "E2", "m2"⟩]).posts
      = [⟨"E2", "t2", "s2", "m2x"⟩] := by
  have h := C3_change_redelivery
    ⟨"Daily", [⟨"E2", "t2", "s2", "m2x"⟩, ⟨"E1", "t1", "s1", "m1"⟩]⟩ 9
    [⟨"Daily", 9, "E1", "m1"⟩, ⟨"Daily", 9, "E2", "m2"⟩]
    ⟨"E2", "t2", "s2", "m2x"⟩ "m2"
    (by simp) (by simp) (by simp) (by decide)
    (by decide) (by decide)
  exact h.1


theorem mkRec_mem_check (kind : ChannelKind) (feed : ParsedFeed) (cid : Nat)
    (L : List DedupRecord)
    (hnd : (feed.entries.map Entry.id).Nodup) (e : Entry)
    (he : e ∈ feed.entries) :
    mkRec feed.title cid e ∈
      get_entries (check_entries kind feed cid L).ledger feed.title cid := by
  rw [check_entries_ledger_eq]
  cases hm : entryMatches (get_entries L feed.title cid) e with
  | false =>
    apply mkRec_mem_ledgerAfter
    · rw [List.mem_filter]
      exact ⟨List.mem_reverse.mpr he, by rw [hm]; rfl⟩
    · exact nodup_filter_reverse_map _ _ hnd
  | true =>
    obtain ⟨r, hr, hrid, hrup⟩ := (entryMatches_iff _ e).mp hm
    obtain ⟨hrL, hrname, hrcid⟩ := mem_get_entries hr
    have hreq : r = mkRec feed.title cid e := by
      cases r
      simp only [mkRec] at hrid hrup hrname hrcid ⊢
      simp [hrid, hrup, hrname, hrcid]
    apply get_entries_ledgerAfter_of_not_mem _ (hreq ▸ hr)
    intro g hg hc
    have hg2 := List.mem_filter.mp hg
    have hge : g = e := List.inj_on_of_nodup_map hnd
      (List.mem_reverse.mp hg2.1) he hc
    rw [hge] at hg2
    rw [hm] at hg2
    cases hg2.2

/-- Counterexample to claim C8 as stated: the claim says the Poller
does not write the dedup record of an entry whose dispatch fails on an
invalid (non-text) destination, but `check_entries` calls
`update_entry` unconditionally after `post_update` returns — so on the
concrete input (one fresh entry, channel 9 not a text channel) the
record is written while the error is logged and nothing is sent. -/
theorem C8_counterexample :
    (⟨"F", 9, "E1", "m0"⟩ : DedupRecord) ∈
      (check_entries .nonText ⟨"F", [⟨"E1", "T", "S", "m0"⟩]⟩ 9 []).ledger ∧
    LogMsg.notTextChannel 9 ∈
      (check_entries .nonText ⟨"F", [⟨"E1", "T", "S", "m0"⟩]⟩ 9 []).logs ∧
    (check_entries .nonText ⟨"F", [⟨"E1", "T", "S", "m0"⟩]⟩ 9 []).posts
      = [] := by
  decide

/-- Claim C8 (amended): when dispatch fails because the destination is
not a valid message target, the Poller logs the failure, still writes
that entry's dedup record (so the entry is NOT retried next cycle),
and continues with the next entry without aborting the cycle. -/
theorem C8_invalid_destination (feed : ParsedFeed) (cid : Nat)
    (L : List DedupRecord) (hnd : (feed.entries.map Entry.id).Nodup) :
    (check_entries .nonText feed cid L).posts = [] ∧
    (check_entries .nonText feed cid L).ledger
      = (check_entries .text feed cid L).ledger ∧
    (∀ e ∈ feed.entries,
      entryMatches (get_entries L feed.title cid) e = false →
        LogMsg.notTextChannel cid ∈ (check_entries .nonText feed cid L).logs ∧
        mkRec feed.title cid e ∈
          get_entries (check_entries .nonText feed cid L).ledger
            feed.title cid) ∧
    (check_entries .text feed cid
        (check_entries .nonText feed cid L).ledger).posts = [] := by
  refine ⟨check_entries_posts_nonText feed cid L, ?_, ?_, ?_⟩
  · rw [check_entries_ledger_eq, check_entries_ledger_eq]
  · intro e he hm
    constructor
    · rw [check_entries_logs_eq]
      apply List.mem_cons_of_mem
      rw [List.mem_flatMap]
      refine ⟨e, ?_, ?_⟩
      · rw [List.mem_filter]
        exact ⟨List.mem_reverse.mpr he, by rw [hm]; rfl⟩
      · simp [entryLogs]
    · exact mkRec_mem_check .nonText feed cid L hnd e he
  · apply check_posts_nil_of_all_match
    intro e he
    rw [entryMatches_iff]
    exact ⟨mkRec feed.title cid e,
      mkRec_mem_check .nonText feed cid L hnd e he, rfl, rfl⟩

/-- Concrete instance of `C8_invalid_destination`: the failed dispatch
to non-text channel 9 is logged, the record is written anyway, and a
retry cycle finds nothing new. -/
theorem C8_invalid_destination_witness :
    LogMsg.notTextChannel 9 ∈
      (check_entries .nonText ⟨"F", [⟨"E1", "T", "S", "m0"⟩]⟩ 9 []).logs ∧
    (⟨"F", 9, "E1", "m0"⟩ : DedupRecord) ∈
      get_entries
        (check_entries .nonText ⟨"F", [⟨"E1", "T", "S", "m0"⟩]⟩ 9 []).ledger
        "F" 9 := by
  have h := C8_invalid_destination ⟨"F", [⟨"E1", "T", "S", "m0"⟩]⟩ 9 []
    (by simp)
  have h2 := h.2.2.1 ⟨"E1", "T", "S", "m0"⟩ (by simp) (by rfl)
  exact h2

/-- Claim C10: the dedup ledger is keyed by the document's own parsed
title: registration stores the parsed title as the feed name, the cycle
reads and writes records under the currently parsed title, so when no
stored record for the channel carries the current title, every entry
fails the dedup match and the whole feed is reposted. -/
theorem C10_title_keyed (parsed : ParsedFeed) (cid gid : Nat) (url : String)
    (L : List DedupRecord)
    (hmiss : ∀ r ∈ L, r.channel_id = cid → r.feed_name ≠ parsed.title) :
    (newFeed parsed cid gid url).name = parsed.title ∧
    get_entries L parsed.title cid = [] ∧
    (check_entries .text parsed cid L).posts = parsed.entries.reverse := by
  have h0 : get_entries L parsed.title cid = [] := by
    rw [get_entries, List.filter_eq_nil_iff]
    intro r hr hc
    simp only [Bool.and_eq_true, beq_iff_eq] at hc
    exact hmiss r hr hc.2 hc.1
  refine ⟨rfl, h0, ?_⟩
  rw [check_entries_posts_text, h0, List.filter_eq_self]
  intro e he
  rfl

/-- Concrete instance of `C10_title_keyed`: the stored record was
written under title `Old`; the document now parses with title `New`,
so its already-delivered entry is posted again. -/
theorem C10_title_keyed_witness :
    (check_entries .text ⟨"New", [⟨"E1", "T", "S", "m1"⟩]⟩ 9
        [⟨"Old", 9, "E1", "m1"⟩]).posts
      = [⟨"E1", "T", "S", "m1"⟩] := by
  have h := C10_title_keyed ⟨"New", [⟨"E1", "T", "S", "m1"⟩]⟩ 9 7 "u"
    [⟨"Old", 9, "E1", "m1"⟩] (by decide)
  exact h.2.2

theorem pollCycle_append_error (fr : String → Except FetchError ParsedFeed)
    (kind : Nat → ChannelKind) (pre : List BotFeed) (f : BotFeed)
    (rest : List BotFeed) (err : FetchError)
    (hf : fr f.url = .error err) :
    ∀ (L : List DedupRecord) (ps : List (Nat × Entry)),
      (pollCycle fr kind pre L ps).2.2 = none →
      pollCycle fr kind (pre ++ f :: rest) L ps
        = ((pollCycle fr kind pre L ps).1,
           (pollCycle fr kind pre L ps).2.1, some err) := by
  induction pre with
  | nil =>
    intro L ps _
    simp [pollCycle, hf]
  | cons g pre ih =>
    intro L ps hnone
    cases hg : fr g.url with
    | error e =>
      rw [pollCycle, hg] at hnone
      cases hnone
    | ok parsed =>
      rw [List.cons_append, pollCycle, hg]
      rw [pollCycle, hg] at hnone
      rw [pollCycle, hg]
      exact ih _ _ hnone


/-- Claim C9: one feed's fetch failure propagates out of the poll
cycle: the feeds after it are not fetched or processed, the cycle
result carries the error, and a failed poll task with the completion
observer attached makes the failure reach the observer (which logs it
and the re-raise). -/
theorem C9_fetch_failure_aborts (fr : String → Except FetchError ParsedFeed)
    (kind : Nat → ChannelKind) (pre : List BotFeed) (f : BotFeed)
    (rest : List BotFeed) (L : List DedupRecord) (err : FetchError)
    (hf : fr f.url = .error err)
    (hpre : (pollCycle fr kind pre L []).2.2 = none) :
    pollCycle fr kind (pre ++ f :: rest) L []
      = ((pollCycle fr kind pre L []).1,
         (pollCycle fr kind pre L []).2.1, some err) ∧
    (∀ (s : SupState) (tid : Nat) (t : STask),
      findTask s.tasks tid = some t → t.status = .running →
      t.hasObserver = true →
      (supStep s (.taskCompleteFailed tid)).logs
        = s.logs ++ [SupLog.restartingPoller, SupLog.callbackException]) := by
  refine ⟨pollCycle_append_error fr kind pre f rest err hf L [] hpre, ?_⟩
  intro s tid t hft hst hobs
  simp [supStep, hft, hst, hobs]

/-- Concrete instance of `C9_fetch_failure_aborts`: with feed A healthy
and feed B timing out, a cycle over A, B, C yields only A's work and
B's error; C is untouched. -/
theorem C9_fetch_failure_aborts_witness :
    pollCycle
        (fun u => if u == "bad" then .error .timeout
          else .ok ⟨"F", [⟨"E1", "T", "S", "m"⟩]⟩)
        (fun _ => .text)
        [⟨"A", 1, 1, "a"⟩, ⟨"B", 2, 1, "bad"⟩, ⟨"C", 3, 1, "c"⟩] [] []
      = ([(1, ⟨"E1", "T", "S", "m"⟩)], [⟨"F", 1, "E1", "m"⟩],
         some .timeout) := by
  have h := C9_fetch_failure_aborts
    (fun u => if u == "bad" then .error .timeout
      else .ok ⟨"F", [⟨"E1", "T", "S", "m"⟩]⟩)
    (fun _ => .text)
    [⟨"A", 1, 1, "a"⟩] ⟨"B", 2, 1, "bad"⟩ [⟨"C", 3, 1, "c"⟩] [] .timeout
    rfl rfl
  exact h.1.trans rfl

theorem findTask_mem {ts : List STask} {tid : Nat} {t : STask}
    (h : findTask ts tid = some t) : t ∈ ts ∧ t.id = tid := by
  refine ⟨List.mem_of_find?_eq_some h, ?_⟩
  have := List.find?_some h
  rwa [beq_iff_eq] at this

theorem findTask_of_nodup {ts : List STask} {tid : Nat} {t : STask}
    (hnd : (ts.map STask.id).Nodup) (ht : t ∈ ts) (hid : t.id = tid) :
    findTask ts tid = some t := by
  induction ts with
  | nil => cases ht
  | cons u us ih =>
    rw [List.map_cons, List.nodup_cons] at hnd
    rcases List.mem_cons.mp ht with rfl | ht2
    · rw [findTask, List.find?_cons, hid]
      simp
    · have hne : (u.id == tid) = false := by
        rw [beq_eq_false_iff_ne]
        intro hc
        rw [← hid] at hc
        exact hnd.1 (hc ▸ List.mem_map.mpr ⟨t, ht2, rfl⟩)
      rw [findTask, List.find?_cons, hne]
      exact ih hnd.2 ht2

theorem setStatus_map_id (ts : List STask) (tid : Nat) (st : TaskStatus) :
    (setStatus ts tid st).map STask.id = ts.map STask.id := by
  rw [setStatus, List.map_map]
  apply List.map_congr_left
  intro t _
  by_cases h : t.id = tid <;> simp [h]

theorem cancelTask_map_id (ts : List STask) (tid : Nat) :
    (cancelTask ts tid).map STask.id = ts.map STask.id := by
  rw [cancelTask, List.map_map]
  apply List.map_congr_left
  intro t _
  by_cases h : t.id = tid ∧ t.status = TaskStatus.running <;> simp [h]

theorem findTask_setStatus (ts : List STask) (tid : Nat) (st : TaskStatus) :
    findTask (setStatus ts tid st) tid
      = (findTask ts tid).map (fun t => { t with status := st }) := by
  induction ts with
  | nil => rfl
  | cons u us ih =>
    by_cases h : u.id = tid
    · simp [findTask, setStatus, List.find?_cons, h]
    · have h1 : setStatus (u :: us) tid st = u :: setStatus us tid st := by
        simp [setStatus, h]
      have hb : (u.id == tid) = false := by simp [h]
      simp only [findTask] at ih ⊢
      rw [h1, List.find?_cons, List.find?_cons, hb]
      exact ih


theorem no_live_of_handleFree {s : SupState} (h : SupInv s)
    (hfree : handleFree s = true) :
    ∀ t ∈ s.tasks, isLive t.status = false := by
  obtain ⟨h1, h2, h3⟩ := h
  intro t ht
  cases hl : isLive t.status with
  | false => rfl
  | true =>
    exfalso
    have hp := h3 t ht hl
    have hft := findTask_of_nodup h2 ht rfl
    simp only [handleFree, hp, hft] at hfree
    rw [beq_iff_eq] at hfree
    rw [hfree] at hl
    simp [isLive] at hl

theorem supInv_init : SupInv supInit := by
  refine ⟨?_, ?_, ?_⟩
  · intro t ht; cases ht
  · simp [supInit]
  · intro t ht; cases ht

theorem supInv_step {s : SupState} (h : SupInv s) (ev : SupEvent) :
    SupInv (supStep s ev) := by
  obtain ⟨h1, h2, h3⟩ := h
  cases ev with
  | startCmd =>
    cases hfree : handleFree s with
    | false =>
      simp only [supStep, hfree, Bool.false_eq_true, if_false]
      exact ⟨h1, h2, h3⟩
    | true =>
      simp only [supStep, hfree, if_true]
      have hnl := no_live_of_handleFree ⟨h1, h2, h3⟩ hfree
      simp only [createStarted]
      refine ⟨?_, ?_, ?_⟩
      · intro t ht
        rcases List.mem_append.mp ht with ht1 | ht2
        · exact Nat.lt_succ_of_lt (h1 t ht1)
        · rw [List.mem_singleton.mp ht2]
          exact Nat.lt_succ_self _
      · rw [List.map_append]
        apply List.Nodup.append h2 (by simp)
        intro a ha hb
        rw [List.map_singleton, List.mem_singleton] at hb
        rcases List.mem_map.mp ha with ⟨u, hu, rfl⟩
        exact Nat.lt_irrefl _ (hb ▸ h1 u hu)
      · intro t ht hl
        rcases List.mem_append.mp ht with ht1 | ht2
        · rw [hnl t ht1] at hl
          cases hl
        · rw [List.mem_singleton.mp ht2]
  | stopCmd =>
    cases hp : s.poller with
    | none =>
      simp only [supStep, hp]
      refine ⟨h1, h2, ?_⟩
      intro t ht hl
      have h5 := h3 t ht hl
      rw [hp] at h5
      exact Option.noConfusion h5
    | some tid =>
      simp only [supStep, hp]
      refine ⟨?_, ?_, ?_⟩
      · intro t ht
        have hmem : t.id ∈ (cancelTask s.tasks tid).map STask.id :=
          List.mem_map.mpr ⟨t, ht, rfl⟩
        rw [cancelTask_map_id] at hmem
        rcases List.mem_map.mp hmem with ⟨u, hu, he⟩
        exact he ▸ h1 u hu
      · rw [cancelTask_map_id]
        exact h2
      · intro t ht hl
        rcases List.mem_map.mp ht with ⟨u, hu, he⟩
        have hid : u.id = t.id := by
          rw [← he]
          cases hc : (u.id == tid && u.status == TaskStatus.running) <;>
            simp [hc]
        have hlu : isLive u.status = true := by
          cases hc : (u.id == tid && u.status == TaskStatus.running) with
          | false =>
            rw [hc] at he
            simp only [Bool.false_eq_true, if_false] at he
            rw [← he] at hl
            exact hl
          | true =>
            obtain ⟨ha, hb⟩ := (Bool.and_eq_true _ _).mp hc
            rw [beq_iff_eq] at hb
            rw [hb]
            rfl
        have h6 := h3 u hu hlu
        rw [hp] at h6
        rw [← hid]
        exact h6
  | taskCompleteCancelled tid =>
    cases hft : findTask s.tasks tid with
    | none =>
      simp only [supStep, hft]
      exact ⟨h1, h2, h3⟩
    | some t =>
      cases hst : (t.status == TaskStatus.cancelRequested) with
      | false =>
        simp only [supStep, hft, hst, Bool.false_eq_true, if_false]
        exact ⟨h1, h2, h3⟩
      | true =>
        simp only [supStep, hft, hst, if_true]
        refine ⟨?_, ?_, ?_⟩
        · intro u hu
          have hmem : u.id ∈
              (setStatus s.tasks tid TaskStatus.doneCancelled).map STask.id :=
            List.mem_map.mpr ⟨u, hu, rfl⟩
          rw [setStatus_map_id] at hmem
          rcases List.mem_map.mp hmem with ⟨v, hv, he⟩
          exact he ▸ h1 v hv
        · rw [setStatus_map_id]
          exact h2
        · intro u hu hl
          rcases List.mem_map.mp hu with ⟨v, hv, he⟩
          by_cases hc : v.id = tid
          · rw [if_pos (by rw [hc]; simp)] at he
            rw [← he] at hl
            simp [isLive] at hl
          · rw [if_neg (by simp [hc])] at he
            rw [← he] at hl ⊢
            exact h3 v hv hl
  | taskCompleteFailed tid =>
    cases hft : findTask s.tasks tid with
    | none =>
      simp only [supStep, hft]
      exact ⟨h1, h2, h3⟩
    | some t =>
      cases hst : (t.status == TaskStatus.running) with
      | false =>
        simp only [supStep, hft, hst, Bool.false_eq_true, if_false]
        exact ⟨h1, h2, h3⟩
      | true =>
        have hmemt := findTask_mem hft
        have hrun : t.status = TaskStatus.running := by
          rwa [beq_iff_eq] at hst
        have hpoll : s.poller = some tid := by
          have := h3 t hmemt.1 (by rw [hrun]; rfl)
          rwa [hmemt.2] at this
        cases hobs : t.hasObserver with
        | false =>
          simp only [supStep, hft, hst, if_true, hobs, Bool.false_eq_true,
            if_false]
          refine ⟨?_, ?_, ?_⟩
          · intro u hu
            have hmem : u.id ∈
                (setStatus s.tasks tid TaskStatus.doneFailed).map STask.id :=
              List.mem_map.mpr ⟨u, hu, rfl⟩
            rw [setStatus_map_id] at hmem
            rcases List.mem_map.mp hmem with ⟨v, hv, he⟩
            exact he ▸ h1 v hv
          · rw [setStatus_map_id]
            exact h2
          · intro u hu hl
            rcases List.mem_map.mp hu with ⟨v, hv, he⟩
            by_cases hc : v.id = tid
            · rw [if_pos (by rw [hc]; simp)] at he
              rw [← he] at hl
              simp [isLive] at hl
            · rw [if_neg (by simp [hc])] at he
              rw [← he] at hl ⊢
              exact h3 v hv hl
        | true =>
          simp only [supStep, hft, hst, if_true, hobs]
          refine ⟨?_, ?_, ?_⟩
          · intro u hu
            rcases List.mem_append.mp hu with hu1 | hu2
            · have hmem : u.id ∈
                  (setStatus s.tasks tid TaskStatus.doneFailed).map STask.id :=
                List.mem_map.mpr ⟨u, hu1, rfl⟩
              rw [setStatus_map_id] at hmem
              rcases List.mem_map.mp hmem with ⟨v, hv, he⟩
              exact Nat.lt_succ_of_lt (he ▸ h1 v hv)
            · rw [List.mem_singleton.mp hu2]
              exact Nat.lt_succ_self _
          · rw [List.map_append, setStatus_map_id]
            apply List.Nodup.append h2 (by simp)
            intro a ha hb
            rw [List.map_singleton, List.mem_singleton] at hb
            rcases List.mem_map.mp ha with ⟨u, hu, rfl⟩
            exact Nat.lt_irrefl _ (hb ▸ h1 u hu)
          · intro u hu hl
            rcases List.mem_append.mp hu with hu1 | hu2
            · exfalso
              rcases List.mem_map.mp hu1 with ⟨v, hv, he⟩
              by_cases hc : v.id = tid
              · rw [if_pos (by rw [hc]; simp)] at he
                rw [← he] at hl
                simp [isLive] at hl
              · rw [if_neg (by simp [hc])] at he
                rw [← he] at hl
                have := h3 v hv hl
                rw [hpoll] at this
                have hvid : v.id = tid := by
                  have h5 := Option.some.inj this
                  exact h5.symm
                exact hc hvid
            · rw [List.mem_singleton.mp hu2]

theorem supInv_supRun (evs : List SupEvent) : SupInv (supRun evs) := by
  rw [supRun]
  have hgen : ∀ (s : SupState), SupInv s →
      SupInv (List.foldl supStep s evs) := by
    induction evs with
    | nil => intro s hs; exact hs
    | cons ev evs ih =>
      intro s hs
      exact ih (supStep s ev) (supInv_step hs ev)
  exact hgen supInit supInv_init

theorem liveTasks_bound (ts : List STask) (p : Nat)
    (hnd : (ts.map STask.id).Nodup)
    (hp : ∀ t ∈ ts, isLive t.status = true → t.id = p) :
    (ts.filter (fun t => isLive t.status)).length ≤ 1 := by
  induction ts with
  | nil => simp
  | cons u us ih =>
    rw [List.map_cons, List.nodup_cons] at hnd
    cases hu : isLive u.status with
    | false =>
      rw [List.filter_cons_of_neg (by rw [hu]; simp)]
      exact ih hnd.2 (fun t ht hl => hp t (List.mem_cons_of_mem u ht) hl)
    | true =>
      rw [List.filter_cons_of_pos (by rw [hu])]
      have hnil : us.filter (fun t => isLive t.status) = [] := by
        rw [List.filter_eq_nil_iff]
        intro t ht hl
        have ha := hp t (List.mem_cons_of_mem u ht) hl
        have hb := hp u (List.mem_cons_self u us) hu
        have hc : u.id = t.id := by rw [hb, ha]
        exact hnd.1 (by rw [hc]; exact List.mem_map.mpr ⟨t, ht, rfl⟩)
      rw [hnil]
      simp

theorem liveTasks_le_one (s : SupState) (h : SupInv s) :
    (liveTasks s).length ≤ 1 := by
  obtain ⟨h1, h2, h3⟩ := h
  rw [liveTasks]
  cases hp : s.poller with
  | none =>
    have hnil : s.tasks.filter (fun t => isLive t.status) = [] := by
      rw [List.filter_eq_nil_iff]
      intro t ht hl
      have := h3 t ht hl
      rw [hp] at this
      cases this
    rw [hnil]
    simp
  | some tid =>
    apply liveTasks_bound s.tasks tid h2
    intro t ht hl
    have := h3 t ht hl
    rw [hp] at this
    exact (Option.some.inj this).symm


/-- Counterexample to claim C4 as stated: after `start`, a failure of
task 0 (observer restarts into task 1 without attaching the observer)
and a failure of task 1, no live execution exists, yet a further
`start()` replies "Already running!" and creates nothing — because the
guard `self.poller is None or self.poller.cancelled()` is false for a
handle referencing a task that finished with an exception. -/
theorem C4_counterexample :
    liveTasks (supRun [.startCmd, .taskCompleteFailed 0,
        .taskCompleteFailed 1]) = [] ∧
    (supRun [.startCmd, .taskCompleteFailed 0, .taskCompleteFailed 1,
        .startCmd]).replies
      = [Reply.successReaction, Reply.alreadyRunning] ∧
    (supRun [.startCmd, .taskCompleteFailed 0, .taskCompleteFailed 1,
        .startCmd]).tasks.length = 2 := by
  decide

/-- Claim C4 (amended): at most one Poller execution is ever live; when
the handle is empty or references a cancellation-finished task,
`start()` creates a new observed execution and reports success;
otherwise — including when the referenced task already ended in failure
and nothing is live — it reports "Already running!" and creates
nothing. -/
theorem C4_supervisor_start :
    (∀ evs : List SupEvent, (liveTasks (supRun evs)).length ≤ 1) ∧
    (∀ s : SupState, handleFree s = true →
      supStep s .startCmd = createStarted s) ∧
    (∀ s : SupState, handleFree s = false →
      (supStep s .startCmd).tasks = s.tasks ∧
      (supStep s .startCmd).nextId = s.nextId ∧
      (supStep s .startCmd).replies
        = s.replies ++ [Reply.alreadyRunning]) := by
  refine ⟨?_, ?_, ?_⟩
  · intro evs
    exact liveTasks_le_one _ (supInv_supRun evs)
  · intro s h
    simp [supStep, h]
  · intro s h
    simp [supStep, h]

/-- Concrete instance of `C4_supervisor_start`: one live task after a
plain start, and a start on the fresh state creates the first task. -/
theorem C4_supervisor_start_witness :
    (liveTasks (supRun [SupEvent.startCmd])).length ≤ 1 ∧
    supStep supInit .startCmd = createStarted supInit := by
  exact ⟨C4_supervisor_start.1 [SupEvent.startCmd],
    C4_supervisor_start.2.1 supInit (by decide)⟩

/-- Counterexample to claim C5 as stated: the execution created by the
restart path has no completion observer, so when it fails nothing
happens — no replacement task is created, nothing is logged, and the
system is left with no live execution. -/
theorem C5_counterexample :
    (supRun [.startCmd, .taskCompleteFailed 0]).tasks
      = [⟨0, .doneFailed, true⟩, ⟨1, .running, false⟩] ∧
    (supRun [.startCmd, .taskCompleteFailed 0, .taskCompleteFailed 1]).tasks
      = [⟨0, .doneFailed, true⟩, ⟨1, .doneFailed, false⟩] ∧
    liveTasks (supRun [.startCmd, .taskCompleteFailed 0,
        .taskCompleteFailed 1]) = [] ∧
    (supRun [.startCmd, .taskCompleteFailed 0, .taskCompleteFailed 1]).logs
      = (supRun [.startCmd, .taskCompleteFailed 0]).logs := by
  decide

/-- Claim C5 (amended): when a running execution that HAS the
completion observer fails, the observer replaces the handle with a
brand-new running execution and the failure is logged/surfaced — but
the replacement is created WITHOUT an observer, so a failure of a
restart-created execution fires no observer: the state only records the
task as failed, with no new execution, no log, no handle change. -/
theorem C5_restart_semantics (s : SupState) (tid : Nat) (t : STask)
    (hft : findTask s.tasks tid = some t)
    (hst : t.status = TaskStatus.running) :
    (t.hasObserver = true →
      (supStep s (.taskCompleteFailed tid)).poller = some s.nextId ∧
      (⟨s.nextId, .running, false⟩ : STask) ∈
        (supStep s (.taskCompleteFailed tid)).tasks ∧
      (supStep s (.taskCompleteFailed tid)).logs
        = s.logs ++ [SupLog.restartingPoller, SupLog.callbackException]) ∧
    (t.hasObserver = false →
      (supStep s (.taskCompleteFailed tid)).tasks
        = setStatus s.tasks tid .doneFailed ∧
      (supStep s (.taskCompleteFailed tid)).poller = s.poller ∧
      (supStep s (.taskCompleteFailed tid)).nextId = s.nextId ∧
      (supStep s (.taskCompleteFailed tid)).logs = s.logs) := by
  constructor
  · intro hobs
    simp only [supStep, hft, hst]
    simp [hobs]
  · intro hobs
    simp only [supStep, hft, hst]
    simp [hobs]

/-- Concrete instance of `C5_restart_semantics`: the failure of the
started (observed) task 0 replaces the handle with unobserved task 1
and logs the failure. -/
theorem C5_restart_semantics_witness :
    (supStep (supRun [SupEvent.startCmd]) (.taskCompleteFailed 0)).poller
      = some 1 ∧
    (supStep (supRun [SupEvent.startCmd]) (.taskCompleteFailed 0)).logs
      = [SupLog.startingPoller, SupLog.restartingPoller,
         SupLog.callbackException] := by
  have h := C5_restart_semantics (supRun [SupEvent.startCmd]) 0
    ⟨0, .running, true⟩ (by decide) rfl
  have h2 := h.1 rfl
  exact ⟨h2.1, h2.2.2⟩

/-- Counterexample to claim C6 as stated: after start, stop and the
cancellation landing, the observer has run, yet the handle still
references completed task 0 — it is not set back to the no-execution
state (`self.poller = None`); no restart happens. -/
theorem C6_counterexample :
    (supRun [.startCmd, .stopCmd, .taskCompleteCancelled 0]).poller
      = some 0 ∧
    liveTasks (supRun [.startCmd, .stopCmd, .taskCompleteCancelled 0])
      = [] ∧
    (supRun [.startCmd, .stopCmd, .taskCompleteCancelled 0]).tasks.length
      = 1 := by
  decide

/-- Claim C6 (amended): when an execution ends by cancellation the
completion observer does nothing: no new execution is created and
nothing is logged, but the handle is NOT cleared — it keeps referencing
the completed task; only `start()`'s guard treats such a handle as the
no-execution state. -/
theorem C6_cancel_cleanup (s : SupState) (tid : Nat) (t : STask)
    (hft : findTask s.tasks tid = some t)
    (hst : t.status = TaskStatus.cancelRequested) :
    (supStep s (.taskCompleteCancelled tid)).poller = s.poller ∧
    (supStep s (.taskCompleteCancelled tid)).tasks
      = setStatus s.tasks tid .doneCancelled ∧
    (supStep s (.taskCompleteCancelled tid)).nextId = s.nextId ∧
    (supStep s (.taskCompleteCancelled tid)).logs = s.logs ∧
    (supStep s (.taskCompleteCancelled tid)).replies = s.replies ∧
    (s.poller = some tid →
      handleFree (supStep s (.taskCompleteCancelled tid)) = true) := by
  have hred : supStep s (.taskCompleteCancelled tid)
      = { s with tasks := setStatus s.tasks tid .doneCancelled } := by
    simp only [supStep, hft, hst]
    simp
  rw [hred]
  refine ⟨rfl, rfl, rfl, rfl, rfl, ?_⟩
  intro hp
  simp only [handleFree, hp, findTask_setStatus, hft]
  rfl

/-- Concrete instance of `C6_cancel_cleanup`: cancellation completion
after start+stop leaves the handle on task 0 and start sees it as
free. -/
theorem C6_cancel_cleanup_witness :
    (supStep (supRun [SupEvent.startCmd, SupEvent.stopCmd])
        (.taskCompleteCancelled 0)).poller = some 0 ∧
    handleFree (supStep (supRun [SupEvent.startCmd, SupEvent.stopCmd])
        (.taskCompleteCancelled 0)) = true := by
  have h := C6_cancel_cleanup (supRun [SupEvent.startCmd, SupEvent.stopCmd])
    0 ⟨0, .cancelRequested, true⟩ (by decide) rfl
  exact ⟨h.1, h.2.2.2.2.2 rfl⟩

/-- Counterexample to claim C7 as stated: after a successful stop whose
cancellation has landed, a second stop still replies with the success
reaction, not "Already stopped!" — the cleanup callback never resets
`self.poller` to `None`, and `stop` only checks `is not None`. -/
theorem C7_counterexample :
    (supRun [.startCmd, .stopCmd, .taskCompleteCancelled 0,
        .stopCmd]).replies
      = [Reply.successReaction, Reply.successReaction,
         Reply.successReaction] ∧
    Reply.alreadyStopped ∉
      (supRun [.startCmd, .stopCmd, .taskCompleteCancelled 0,
          .stopCmd]).replies := by
  decide

/-- Claim C7 (amended): `stop()` requests cancellation and reports
success whenever the handle is non-empty — whether or not the
referenced execution is still live; it reports "Already stopped!" only
when no execution was ever created (handle `None`).  A second stop
after a successful stop therefore reports success again. -/
theorem C7_stop_semantics :
    (∀ (s : SupState) (tid : Nat), s.poller = some tid →
      (supStep s .stopCmd).replies = s.replies ++ [Reply.successReaction] ∧
      (supStep s .stopCmd).logs = s.logs ++ [SupLog.stoppedPolling] ∧
      (supStep s .stopCmd).tasks = cancelTask s.tasks tid) ∧
    (∀ s : SupState, s.poller = none →
      (supStep s .stopCmd).replies = s.replies ++ [Reply.alreadyStopped] ∧
      (supStep s .stopCmd).tasks = s.tasks) ∧
    (supRun [.startCmd, .stopCmd, .taskCompleteCancelled 0,
        .stopCmd]).replies
      = [Reply.successReaction, Reply.successReaction,
         Reply.successReaction] := by
  refine ⟨?_, ?_, by decide⟩
  · intro s tid hp
    simp [supStep, hp]
  · intro s hp
    simp [supStep, hp]

/-- Concrete instance of `C7_stop_semantics`: stop on a running state
reacts with success; stop on the fresh state replies already
stopped. -/
theorem C7_stop_semantics_witness :
    (supStep (supRun [SupEvent.startCmd]) .stopCmd).replies
      = [Reply.successReaction, Reply.successReaction] ∧
    (supStep supInit .stopCmd).replies = [Reply.alreadyStopped] := by
  exact ⟨(C7_stop_semantics.1 (supRun [SupEvent.startCmd]) 0 rfl).1,
    (C7_stop_semantics.2.1 supInit rfl).1⟩

end Feedme
